import Mathlib

/-!
Verification of the p4-pdpi value codec and annotation-parsing library.

Byte strings are modelled as lists of naturals (one per byte) and text as
lists of characters.  Fallible operations return an Except over the two error
kinds the library uses (absl InvalidArgument and NotFound).  The bodies of
GetAllParsedAnnotations and GetParsedAnnotation are translated from
p4_pdpi/utils/annotation_parser.h; the remaining operations are declared in
p4_pdpi/utils/ir.h and annotation_parser.h but their definitions (ir.cc,
annotation_parser.cc) are not part of the source tree, so they are modelled
from the specification, as marked on each such definition.
-/

namespace Pdpi

/-- Error kinds used by the library: absl InvalidArgument and NotFound. -/
inductive Err where
  | invalidArgument
  | notFound
  deriving DecidableEq

/-- Width constants from p4_pdpi/utils/ir.h, lines 28-34. -/
def kNumBitsInByte : Nat := 8

def kNumBitsInMac : Nat := 48

def kNumBytesInMac : Nat := kNumBitsInMac / kNumBitsInByte

def kNumBitsInIpv4 : Nat := 32

def kNumBytesInIpv4 : Nat := kNumBitsInIpv4 / kNumBitsInByte

def kNumBitsInIpv6 : Nat := 128

def kNumBytesInIpv6 : Nat := kNumBitsInIpv6 / kNumBitsInByte

/-- Number of bytes needed to hold a bitwidth, ceil(bitwidth/8). -/
def bytesNeeded (bitwidth : Nat) : Nat := (bitwidth + 7) / 8

/-- Big-endian encoding of a value into exactly n bytes, most significant
byte first (the value is taken modulo 256 ^ n). -/
def natToBytesBE : Nat → Nat → List Nat
  | 0, _ => []
  | n + 1, v => natToBytesBE n (v / 256) ++ [v % 256]

/-- Value of a byte string read as a big-endian unsigned integer. -/
def bytesToNatBE (bytes : List Nat) : Nat :=
  bytes.foldl (fun acc b => acc * 256 + b) 0

/-- Fuel-driven count of the bits of a natural number (index of the highest
set bit plus one, and 0 for 0); the fuel argument makes the recursion
structural.  Meaningful whenever the value is at most the fuel. -/
def bitLenAux : Nat → Nat → Nat
  | 0, _ => 0
  | fuel + 1, v => if v = 0 then 0 else bitLenAux fuel (v / 2) + 1

/-- Number of bits needed to represent a natural number. -/
def bitLen (v : Nat) : Nat := bitLenAux v v

/-- Modelled from the spec: GetBitwidthOfPiByteString (declared at
ir.h lines 95-97; ir.cc is not in the source tree) returns the number of bits
used by the byte string read as a big-endian unsigned integer, i.e. the index
of the highest set bit plus one, an all-zero string yielding 0. -/
def GetBitwidthOfPiByteString (input_string : List Nat) : Nat :=
  bitLen (bytesToNatBE input_string)

/-- Modelled from the spec: Normalize (declared at ir.h lines 60-62; ir.cc is
not in the source tree) returns a byte string of length
ceil(expected_bitwidth/8), zero-padding or stripping leading zero bytes on the
left (big-endian), and fails with InvalidArgument when the significant bit
count of the input exceeds the expected bitwidth. -/
def Normalize (pi_byte_string : List Nat) (expected_bitwidth : Nat) :
    Except Err (List Nat) :=
  if expected_bitwidth < GetBitwidthOfPiByteString pi_byte_string then
    .error .invalidArgument
  else
    .ok (natToBytesBE (bytesNeeded expected_bitwidth) (bytesToNatBE pi_byte_string))

/-- Modelled from the spec: PiByteStringToUint (declared at ir.h lines 64-66;
ir.cc is not in the source tree) decodes the byte string big-endian, failing
with InvalidArgument if the bitwidth exceeds 64 or the byte length is
inconsistent with the bitwidth. -/
def PiByteStringToUint (pi_bytes : List Nat) (bitwidth : Nat) : Except Err Nat :=
  if 64 < bitwidth then .error .invalidArgument
  else if pi_bytes.length = bytesNeeded bitwidth then .ok (bytesToNatBE pi_bytes)
  else .error .invalidArgument

/-- Modelled from the spec: UintToPiByteString (declared at ir.h lines 68-69;
ir.cc is not in the source tree) encodes the value big-endian into
ceil(bitwidth/8) bytes, failing with InvalidArgument if the value does not fit
in the given number of bits. -/
def UintToPiByteString (value : Nat) (bitwidth : Nat) : Except Err (List Nat) :=
  if 2 ^ bitwidth ≤ value then .error .invalidArgument
  else .ok (natToBytesBE (bytesNeeded bitwidth) value)

/-- Lowercase hexadecimal digit for a value below 16. -/
def hexCharOfNat (n : Nat) : Char :=
  if n < 10 then Char.ofNat (48 + n) else Char.ofNat (87 + n)

/-- Value of a lowercase hexadecimal digit, none for any other character. -/
def hexVal (c : Char) : Option Nat :=
  if 48 ≤ c.toNat ∧ c.toNat ≤ 57 then some (c.toNat - 48)
  else if 97 ≤ c.toNat ∧ c.toNat ≤ 102 then some (c.toNat - 87)
  else none

/-- Decimal digit character for a value below 10. -/
def decCharOfNat (n : Nat) : Char := Char.ofNat (48 + n)

/-- Value of a decimal digit, none for any other character. -/
def decVal (c : Char) : Option Nat :=
  if 48 ≤ c.toNat ∧ c.toNat ≤ 57 then some (c.toNat - 48) else none

/-- Two lowercase hex digits of a byte, most significant first. -/
def byteToHexPair (b : Nat) : List Char :=
  [hexCharOfNat (b / 16), hexCharOfNat (b % 16)]

/-- Parses exactly two hex digits into a byte value. -/
def parseHexOctet (s : List Char) : Except Err Nat :=
  match s with
  | [c1, c2] =>
    match hexVal c1, hexVal c2 with
    | some h1, some h2 => .ok (h1 * 16 + h2)
    | _, _ => .error .invalidArgument
  | _ => .error .invalidArgument

/-- Decimal rendering of a byte value (no leading zeros; values below 256
use at most three digits). -/
def byteToDec (b : Nat) : List Char :=
  if b < 10 then [decCharOfNat b]
  else if b < 100 then [decCharOfNat (b / 10), decCharOfNat (b % 10)]
  else [decCharOfNat (b / 100), decCharOfNat (b / 10 % 10), decCharOfNat (b % 10)]

/-- Collects the values of a list where the given function succeeds on every
element, none otherwise. -/
def mapOption (f : α → Option β) : List α → Option (List β)
  | [] => some []
  | a :: as =>
    match f a, mapOption f as with
    | some b, some bs => some (b :: bs)
    | _, _ => none

/-- Parses a nonempty decimal digit string into a byte value, rejecting
values of 256 or more. -/
def parseDecOctet (s : List Char) : Except Err Nat :=
  match mapOption decVal s with
  | some ds =>
    if s = [] then .error .invalidArgument
    else
      if ds.foldl (fun a d => a * 10 + d) 0 < 256 then
        .ok (ds.foldl (fun a d => a * 10 + d) 0)
      else .error .invalidArgument
  | none => .error .invalidArgument

/-- Four lowercase hex digits of a 16-bit group, most significant first. -/
def groupToHexQuad (g : Nat) : List Char :=
  [hexCharOfNat (g / 4096), hexCharOfNat (g / 256 % 16),
   hexCharOfNat (g / 16 % 16), hexCharOfNat (g % 16)]

/-- Parses exactly four hex digits into a 16-bit group value. -/
def parseHexQuad (s : List Char) : Except Err Nat :=
  match s with
  | [c1, c2, c3, c4] =>
    match hexVal c1, hexVal c2, hexVal c3, hexVal c4 with
    | some h1, some h2, some h3, some h4 =>
      .ok (((h1 * 16 + h2) * 16 + h3) * 16 + h4)
    | _, _, _, _ => .error .invalidArgument
  | _ => .error .invalidArgument

/-- Combines consecutive byte pairs into big-endian 16-bit groups. -/
def bytePairsToGroups : List Nat → List Nat
  | [] => []
  | [_] => []
  | b1 :: b2 :: rest => (b1 * 256 + b2) :: bytePairsToGroups rest

/-- Splits a character list at every occurrence of the separator; the
separator occurrences are dropped and the result is always nonempty. -/
def splitOnChar (c : Char) : List Char → List (List Char)
  | [] => [[]]
  | x :: xs =>
    if x = c then [] :: splitOnChar c xs
    else
      match splitOnChar c xs with
      | [] => [[x]]
      | r :: rs => (x :: r) :: rs

/-- Joins the pieces with the separator between consecutive pieces. -/
def joinWith (c : Char) : List (List Char) → List Char
  | [] => []
  | [g] => g
  | g :: gs => g ++ c :: joinWith c gs

/-- Applies a fallible function to every element, propagating the first
failure and keeping the successes in order. -/
def mapMExcept (f : α → Except Err β) : List α → Except Err (List β)
  | [] => .ok []
  | a :: as =>
    match f a with
    | .error e => .error e
    | .ok b =>
      match mapMExcept f as with
      | .error e => .error e
      | .ok bs => .ok (b :: bs)

/-- Modelled from the spec: PiByteStringToMac (declared at ir.h lines 71-74;
ir.cc is not in the source tree) requires exactly 6 bytes and renders them as
six lowercase hex octets joined by colons, failing with InvalidArgument on
any other length. -/
def PiByteStringToMac (normalized_bytes : List Nat) : Except Err (List Char) :=
  if normalized_bytes.length = kNumBytesInMac then
    .ok (joinWith ':' (normalized_bytes.map byteToHexPair))
  else .error .invalidArgument

/-- Modelled from the spec: MacToPiByteString (declared at ir.h lines 76-77;
ir.cc is not in the source tree) parses the colon-separated form back to 6
bytes, failing with InvalidArgument on malformed octets or a wrong octet
count. -/
def MacToPiByteString (mac : List Char) : Except Err (List Nat) :=
  if (splitOnChar ':' mac).length = kNumBytesInMac then
    mapMExcept parseHexOctet (splitOnChar ':' mac)
  else .error .invalidArgument

/-- Modelled from the spec: PiByteStringToIpv4 (declared at ir.h lines 79-82;
ir.cc is not in the source tree) requires exactly 4 bytes and renders them in
dotted-decimal form, failing with InvalidArgument on any other length. -/
def PiByteStringToIpv4 (normalized_bytes : List Nat) : Except Err (List Char) :=
  if normalized_bytes.length = kNumBytesInIpv4 then
    .ok (joinWith '.' (normalized_bytes.map byteToDec))
  else .error .invalidArgument

/-- Modelled from the spec: Ipv4ToPiByteString (declared at ir.h lines 84-85;
ir.cc is not in the source tree) parses the dotted-decimal form back to 4
bytes, failing with InvalidArgument on malformed octets or a wrong octet
count. -/
def Ipv4ToPiByteString (ipv4 : List Char) : Except Err (List Nat) :=
  if (splitOnChar '.' ipv4).length = kNumBytesInIpv4 then
    mapMExcept parseDecOctet (splitOnChar '.' ipv4)
  else .error .invalidArgument

/-- Modelled from the spec: PiByteStringToIpv6 (declared at ir.h lines 87-90;
ir.cc is not in the source tree) requires exactly 16 bytes and renders them
as eight colon-separated groups of four lowercase hex digits; the canonical
form is fixed-width and uncompressed, a choice the spec leaves to the
implementation with round-trip equality as the binding contract. -/
def PiByteStringToIpv6 (normalized_bytes : List Nat) : Except Err (List Char) :=
  if normalized_bytes.length = kNumBytesInIpv6 then
    .ok (joinWith ':' ((bytePairsToGroups normalized_bytes).map groupToHexQuad))
  else .error .invalidArgument

/-- Modelled from the spec: Ipv6ToPiByteString (declared at ir.h lines 92-93;
ir.cc is not in the source tree) parses the colon-separated hex groups back
to 16 bytes, failing with InvalidArgument on malformed groups or a wrong
group count. -/
def Ipv6ToPiByteString (ipv6 : List Char) : Except Err (List Nat) :=
  if (splitOnChar ':' ipv6).length = 8 then
    match mapMExcept parseHexQuad (splitOnChar ':' ipv6) with
    | .ok vs => .ok ((vs.map (fun v => [v / 256, v % 256])).flatten)
    | .error e => .error e
  else .error .invalidArgument

/-- Whitespace characters treated as insignificant inside annotations. -/
def isWSChar (c : Char) : Bool := c = ' ' || c = '\t'

/-- Identifier characters for an annotation label. -/
def isIdentChar (c : Char) : Bool := c.isAlphanum || c = '_'

/-- Characters allowed in an annotation argument-list body: alphanumerics,
comma, space, tab and underscore. -/
def isArgListChar (c : Char) : Bool :=
  c.isAlphanum || c = ',' || c = ' ' || c = '\t' || c = '_'

/-- Removes leading and trailing whitespace. -/
def trimWS (s : List Char) : List Char :=
  ((s.dropWhile isWSChar).reverse.dropWhile isWSChar).reverse

/-- Components of an annotation (annotation_parser.h, lines 61-64). -/
structure AnnotationComponents where
  label : List Char
  body : List Char
  deriving DecidableEq

/-- Modelled from the spec: ParseAnnotation (declared at annotation_parser.h
lines 66-69; annotation_parser.cc is not in the source tree) matches
text of the shape at-sign, identifier label, optional whitespace, and a
parenthesized body running to the final close-paren, with whitespace around
the body stripped; any other text fails with InvalidArgument. -/
def ParseAnnotation (annotation_text : List Char) :
    Except Err AnnotationComponents :=
  match annotation_text with
  | '@' :: rest =>
    if rest.takeWhile isIdentChar = [] then .error .invalidArgument
    else
      match (rest.dropWhile isIdentChar).dropWhile isWSChar with
      | '(' :: more =>
        match more.reverse.dropWhile isWSChar with
        | ')' :: bodyRev =>
          .ok ⟨rest.takeWhile isIdentChar, trimWS bodyRev.reverse⟩
        | _ => .error .invalidArgument
      | _ => .error .invalidArgument
  | _ => .error .invalidArgument

/-- Modelled from the spec: ParseAsArgList (declared at annotation_parser.h
lines 50-54; annotation_parser.cc is not in the source tree) splits the body
on commas and trims whitespace from each element, in order; it fails with
InvalidArgument when any character is neither alphanumeric, comma, space,
tab, nor underscore, and an empty body yields an empty list. -/
def ParseAsArgList (body : List Char) : Except Err (List (List Char)) :=
  if body.all isArgListChar then
    if body = [] then .ok []
    else .ok ((splitOnChar ',' body).map trimWS)
  else .error .invalidArgument

/-- Returns the raw input string (annotation_parser.h, line 57). -/
def Raw (body : List Char) : Except Err (List Char) := .ok body

/-- Loop of GetAllParsedAnnotations (annotation_parser.h, lines 87-100):
annotations that fail to parse are skipped, the body parser is applied to
every annotation whose label matches, its first failure is propagated, and
the successes are collected in input order. -/
def collectParsedAnnotations (label : List Char)
    (p : List Char → Except Err T) : List (List Char) → Except Err (List T)
  | [] => .ok []
  | a :: rest =>
    match ParseAnnotation a with
    | .error _ => collectParsedAnnotations label p rest
    | .ok comps =>
      if comps.label = label then
        match p comps.body with
        | .error e => .error e
        | .ok v =>
          match collectParsedAnnotations label p rest with
          | .error e => .error e
          | .ok vs => .ok (v :: vs)
      else collectParsedAnnotations label p rest

/-- GetAllParsedAnnotations (annotation_parser.h, lines 83-106): the scan
above, except that an empty result list becomes a NotFound error. -/
def GetAllParsedAnnotations (label : List Char) (annotations_list : List (List Char))
    (p : List Char → Except Err T) : Except Err (List T) :=
  match collectParsedAnnotations label p annotations_list with
  | .error e => .error e
  | .ok [] => .error .notFound
  | .ok vs => .ok vs

/-- GetParsedAnnotation (annotation_parser.h, lines 119-132): runs
GetAllParsedAnnotations, turns more than one value into an InvalidArgument
error and otherwise returns the first value.  The empty-list arm is
unreachable because GetAllParsedAnnotations maps it to NotFound. -/
def GetParsedAnnotation (label : List Char) (annotations_list : List (List Char))
    (p : List Char → Except Err T) : Except Err T :=
  match GetAllParsedAnnotations label annotations_list p with
  | .error e => .error e
  | .ok vs =>
    if vs.length > 1 then .error .invalidArgument
    else
      match vs with
      | v :: _ => .ok v
      | [] => .error .notFound

/-- GetAllAnnotationBodies (annotation_parser.h, lines 163-170). -/
def GetAllAnnotationBodies (label : List Char)
    (annotations_list : List (List Char)) : Except Err (List (List Char)) :=
  GetAllParsedAnnotations label annotations_list Raw

/-- GetAnnotationBody (annotation_parser.h, lines 155-161). -/
def GetAnnotationBody (label : List Char)
    (annotations_list : List (List Char)) : Except Err (List Char) :=
  GetParsedAnnotation label annotations_list Raw

/-- Bodies of the annotations that parse and carry the given label, in input
order. -/
def matchingBodies (label : List Char)
    (annotations_list : List (List Char)) : List (List Char) :=
  annotations_list.filterMap (fun a =>
    match ParseAnnotation a with
    | .ok comps => if comps.label = label then some comps.body else none
    | .error _ => none)

/-- Success value of an Except, none on error. -/
def exceptToOption : Except Err α → Option α
  | .ok v => some v
  | .error _ => none

/-- Wire formats of an IR value (Format enum of ir.proto, which is not in the
source tree; the enumeration follows the spec). -/
inductive Format where
  | HEX_STRING
  | MAC
  | IPV4
  | IPV6
  | STRING
  deriving DecidableEq

/-- Typed IR value: a tagged union whose active variant corresponds 1:1 to a
Format (oneof of ir.proto, which is not in the source tree; modelled from the
spec). -/
inductive IrValue where
  | hexStr (value : List Char)
  | mac (value : List Char)
  | ipv4 (value : List Char)
  | ipv6 (value : List Char)
  | str (value : List Char)
  deriving DecidableEq

/-- Format corresponding to the active variant of an IR value. -/
def formatOfIrValue : IrValue → Format
  | .hexStr _ => .HEX_STRING
  | .mac _ => .MAC
  | .ipv4 _ => .IPV4
  | .ipv6 _ => .IPV6
  | .str _ => .STRING

/-- Modelled from the spec: ValidateIrValueFormat (declared at ir.h lines
41-44; ir.cc is not in the source tree) fails with InvalidArgument unless the
IR value's active variant equals the format. -/
def ValidateIrValueFormat (ir_value : IrValue) (format : Format) :
    Except Err Unit :=
  if formatOfIrValue ir_value = format then .ok () else .error .invalidArgument

/-- Modelled from the spec: FormattedStringToIrValue (declared at ir.h lines
54-58; ir.cc is not in the source tree) copies the already-formatted value
into the oneof field selected by the format, without re-validating its
internal structure. -/
def FormattedStringToIrValue (value : List Char) (format : Format) : IrValue :=
  match format with
  | .HEX_STRING => .hexStr value
  | .MAC => .mac value
  | .IPV4 => .ipv4 value
  | .IPV6 => .ipv6 value
  | .STRING => .str value

/-- Label of the format directive annotation. -/
def formatLabel : List Char := "format".toList

/-- Modelled from the spec: body parser of the format directive, mapping a
format name to its Format and failing with InvalidArgument on an unparseable
body. -/
def parseFormatBody (body : List Char) : Except Err Format :=
  if body = "HEX_STRING".toList then .ok .HEX_STRING
  else if body = "MAC".toList then .ok .MAC
  else if body = "IPV4".toList then .ok .IPV4
  else if body = "IPV6".toList then .ok .IPV6
  else if body = "STRING".toList then .ok .STRING
  else .error .invalidArgument

/-- Modelled from the spec: a format directive contradicting a fixed-width
requirement (a MAC, IPv4 or IPv6 directive on a field whose bit-width is not
48, 32 or 128 respectively) is an InvalidArgument error. -/
def checkFormatWidth (format : Format) (bitwidth : Nat) : Except Err Format :=
  match format with
  | .MAC => if bitwidth = kNumBitsInMac then .ok format else .error .invalidArgument
  | .IPV4 => if bitwidth = kNumBitsInIpv4 then .ok format else .error .invalidArgument
  | .IPV6 => if bitwidth = kNumBitsInIpv6 then .ok format else .error .invalidArgument
  | _ => .ok format

/-- Modelled from the spec: GetFormat (declared at ir.h lines 36-39; ir.cc is
not in the source tree) resolves the format with the precedence: the SDN
string flag forces STRING; otherwise an explicit format directive wins, after
the fixed-width check; otherwise a bit-width-driven default applies, 48 to
MAC, 32 to IPV4, 128 to IPV6 and anything else to HEX_STRING.  A present but
malformed directive is an error. -/
def GetFormat (annotations_list : List (List Char)) (bitwidth : Nat)
    (is_sdn_string : Bool) : Except Err Format :=
  if is_sdn_string then .ok .STRING
  else
    match GetParsedAnnotation formatLabel annotations_list parseFormatBody with
    | .ok format => checkFormatWidth format bitwidth
    | .error .notFound =>
      .ok (if bitwidth = kNumBitsInMac then .MAC
        else if bitwidth = kNumBitsInIpv4 then .IPV4
        else if bitwidth = kNumBitsInIpv6 then .IPV6
        else .HEX_STRING)
    | .error e => .error e

theorem natToBytesBE_length : ∀ (n v : Nat), (natToBytesBE n v).length = n := by
  intro n
  induction n with
  | zero => intro v; rfl
  | succ n ih => intro v; simp [natToBytesBE, ih]

theorem bytesToNatBE_append_singleton (xs : List Nat) (b : Nat) :
    bytesToNatBE (xs ++ [b]) = bytesToNatBE xs * 256 + b := by
  simp [bytesToNatBE, List.foldl_append]

theorem bytesToNatBE_natToBytesBE :
    ∀ (n v : Nat), bytesToNatBE (natToBytesBE n v) = v % 256 ^ n := by
  intro n
  induction n with
  | zero => intro v; simp [natToBytesBE, bytesToNatBE, Nat.mod_one]
  | succ n ih =>
    intro v
    rw [natToBytesBE, bytesToNatBE_append_singleton, ih, pow_succ']
    rw [Nat.mod_mul]
    omega

theorem two_pow_le_base256 (b : Nat) : 2 ^ b ≤ 256 ^ bytesNeeded b := by
  have h8 : b ≤ 8 * bytesNeeded b := by unfold bytesNeeded; omega
  calc 2 ^ b ≤ 2 ^ (8 * bytesNeeded b) := Nat.pow_le_pow_right (by norm_num) h8
    _ = 256 ^ bytesNeeded b := by rw [Nat.pow_mul]

theorem bitLenAux_le_iff :
    ∀ (fuel v b : Nat), v ≤ fuel → (bitLenAux fuel v ≤ b ↔ v < 2 ^ b) := by
  intro fuel
  induction fuel with
  | zero =>
    intro v b hv
    have hv0 : v = 0 := by omega
    subst hv0
    simp [bitLenAux, Nat.pos_pow_of_pos, Nat.pow_pos]
  | succ fuel ih =>
    intro v b hv
    by_cases hv0 : v = 0
    · subst hv0
      simp [bitLenAux, Nat.pow_pos]
    · rw [bitLenAux, if_neg hv0]
      cases b with
      | zero =>
        simp only [Nat.pow_zero]
        omega
      | succ b =>
        rw [Nat.succ_le_succ_iff, ih (v / 2) b (by omega), pow_succ]
        rw [Nat.div_lt_iff_lt_mul (by norm_num)]

theorem bitLen_le_iff (v b : Nat) : bitLen v ≤ b ↔ v < 2 ^ b :=
  bitLenAux_le_iff v v b (Nat.le_refl v)

/-- C1: for every bit-width b with 0 < b <= 64 and every value v with
0 <= v < 2^b, decoding the encoding round-trips:
PiByteStringToUint (UintToPiByteString v b) b succeeds and equals v. -/
theorem claim_c1 (b v : Nat) (hb0 : 0 < b) (hb : b ≤ 64) (hv : v < 2 ^ b) :
    ∃ bytes, UintToPiByteString v b = .ok bytes ∧
      PiByteStringToUint bytes b = .ok v := by
  refine ⟨natToBytesBE (bytesNeeded b) v, ?_, ?_⟩
  · unfold UintToPiByteString
    rw [if_neg (by omega)]
  · unfold PiByteStringToUint
    rw [if_neg (by omega), if_pos (natToBytesBE_length _ _), bytesToNatBE_natToBytesBE]
    have hlt : v < 256 ^ bytesNeeded b := lt_of_lt_of_le hv (two_pow_le_base256 b)
    rw [Nat.mod_eq_of_lt hlt]

/-- Witness for C1 at bitwidth 16 and value 300. -/
theorem claim_c1_witness :
    0 < 16 ∧ 16 ≤ 64 ∧ 300 < 2 ^ 16 ∧
      ∃ bytes, UintToPiByteString 300 16 = .ok bytes ∧
        PiByteStringToUint bytes 16 = .ok 300 :=
  ⟨by decide, by decide, by decide, claim_c1 16 300 (by decide) (by decide) (by decide)⟩

theorem bytesToNatBE_lt_of_bitwidth_le {s : List Nat} {b : Nat}
    (h : GetBitwidthOfPiByteString s ≤ b) :
    bytesToNatBE s < 256 ^ bytesNeeded b :=
  lt_of_lt_of_le ((bitLen_le_iff _ _).mp h) (two_pow_le_base256 b)

/-- C4: for every byte string raw and bit-width b, Normalize raw b either
returns a byte string of length exactly ceil(b/8) carrying the same
big-endian value (zero-padding or stripping leading zero bytes on the left),
or fails with InvalidArgument; it fails exactly when the significant bit
count of raw, as measured by GetBitwidthOfPiByteString, exceeds b. -/
theorem claim_c4 (raw : List Nat) (b : Nat) :
    (GetBitwidthOfPiByteString raw ≤ b →
      ∃ out, Normalize raw b = .ok out ∧ out.length = bytesNeeded b ∧
        bytesToNatBE out = bytesToNatBE raw) ∧
    (b < GetBitwidthOfPiByteString raw →
      Normalize raw b = .error .invalidArgument) := by
  constructor
  · intro h
    unfold Normalize
    rw [if_neg (by omega)]
    refine ⟨_, rfl, natToBytesBE_length _ _, ?_⟩
    rw [bytesToNatBE_natToBytesBE]
    exact Nat.mod_eq_of_lt (bytesToNatBE_lt_of_bitwidth_le h)
  · intro h
    unfold Normalize
    rw [if_pos h]

/-- Witness for C4 at the spec's concrete scenario 6: the two-byte string
0x01 0x00 has 9 significant bits, so normalizing to bitwidth 8 fails. -/
theorem claim_c4_witness :
    8 < GetBitwidthOfPiByteString [1, 0] ∧
      Normalize [1, 0] 8 = .error .invalidArgument :=
  ⟨by decide, (claim_c4 [1, 0] 8).2 (by decide)⟩

/-- C5: Normalize is idempotent: whenever Normalize s b succeeds with output
out, normalizing out again at the same bit-width succeeds and returns out. -/
theorem claim_c5 (s : List Nat) (b : Nat) (out : List Nat)
    (h : Normalize s b = .ok out) : Normalize out b = .ok out := by
  unfold Normalize at h
  by_cases hc : b < GetBitwidthOfPiByteString s
  · rw [if_pos hc] at h
    exact absurd h (by simp)
  · rw [if_neg hc] at h
    have hout : out = natToBytesBE (bytesNeeded b) (bytesToNatBE s) :=
      (Except.ok.injEq _ _).mp h.symm
    have hlt : bytesToNatBE s < 256 ^ bytesNeeded b :=
      bytesToNatBE_lt_of_bitwidth_le (by omega)
    have hval : bytesToNatBE out = bytesToNatBE s := by
      rw [hout, bytesToNatBE_natToBytesBE, Nat.mod_eq_of_lt hlt]
    unfold Normalize GetBitwidthOfPiByteString
    rw [hval, if_neg (show ¬ b < bitLen (bytesToNatBE s) from hc), hout]

/-- Witness for C5: normalizing 0x00 0x05 at bitwidth 4 gives the one-byte
string 0x05, and normalizing that again gives the same string. -/
theorem claim_c5_witness :
    Normalize [0, 5] 4 = .ok [5] ∧ Normalize [5] 4 = .ok [5] :=
  ⟨by rfl, claim_c5 [0, 5] 4 [5] (by rfl)⟩

theorem hexVal_hexCharOfNat_fin :
    ∀ x : Fin 16, hexVal (hexCharOfNat x.val) = some x.val := by decide

theorem hexVal_hexCharOfNat {x : Nat} (hx : x < 16) :
    hexVal (hexCharOfNat x) = some x :=
  hexVal_hexCharOfNat_fin ⟨x, hx⟩

theorem hexCharOfNat_ne_colon_fin : ∀ x : Fin 16, hexCharOfNat x.val ≠ ':' := by decide

theorem hexCharOfNat_ne_colon {x : Nat} (hx : x < 16) : hexCharOfNat x ≠ ':' :=
  hexCharOfNat_ne_colon_fin ⟨x, hx⟩

theorem decVal_decCharOfNat_fin :
    ∀ x : Fin 10, decVal (decCharOfNat x.val) = some x.val := by decide

theorem decVal_decCharOfNat {x : Nat} (hx : x < 10) :
    decVal (decCharOfNat x) = some x :=
  decVal_decCharOfNat_fin ⟨x, hx⟩

theorem decCharOfNat_ne_dot_fin : ∀ x : Fin 10, decCharOfNat x.val ≠ '.' := by decide

theorem decCharOfNat_ne_dot {x : Nat} (hx : x < 10) : decCharOfNat x ≠ '.' :=
  decCharOfNat_ne_dot_fin ⟨x, hx⟩

theorem splitOnChar_no_sep (c : Char) :
    ∀ (g : List Char), (∀ x ∈ g, x ≠ c) → splitOnChar c g = [g] := by
  intro g
  induction g with
  | nil => intro _; rfl
  | cons x g' ih =>
    intro h
    have hx : x ≠ c := h x (by simp)
    rw [splitOnChar, if_neg hx, ih (fun y hy => h y (by simp [hy]))]

theorem splitOnChar_append_sep (c : Char) :
    ∀ (g s : List Char), (∀ x ∈ g, x ≠ c) →
      splitOnChar c (g ++ c :: s) = g :: splitOnChar c s := by
  intro g
  induction g with
  | nil =>
    intro s _
    simp [splitOnChar]
  | cons x g' ih =>
    intro s h
    have hx : x ≠ c := h x (by simp)
    rw [List.cons_append, splitOnChar, if_neg hx,
      ih s (fun y hy => h y (by simp [hy]))]

theorem splitOnChar_joinWith (c : Char) :
    ∀ (gs : List (List Char)), gs ≠ [] → (∀ g ∈ gs, ∀ x ∈ g, x ≠ c) →
      splitOnChar c (joinWith c gs) = gs := by
  intro gs
  induction gs with
  | nil => intro h _; exact absurd rfl h
  | cons g gs' ih =>
    intro _ hall
    cases gs' with
    | nil =>
      simp only [joinWith]
      exact splitOnChar_no_sep c g (hall g (by simp))
    | cons g2 gs'' =>
      simp only [joinWith]
      rw [splitOnChar_append_sep c g _ (hall g (by simp)),
        ih (by simp) (fun g' hg' => hall g' (by simp [hg']))]

theorem mapMExcept_roundtrip (p : β → Except Err α) (r : α → β) :
    ∀ (l : List α), (∀ a ∈ l, p (r a) = .ok a) →
      mapMExcept p (l.map r) = .ok l := by
  intro l
  induction l with
  | nil => intro _; rfl
  | cons a l' ih =>
    intro h
    simp only [List.map_cons, mapMExcept, h a (by simp),
      ih (fun a' ha' => h a' (by simp [ha']))]

theorem parseHexOctet_byteToHexPair {b : Nat} (hb : b < 256) :
    parseHexOctet (byteToHexPair b) = .ok b := by
  simp only [byteToHexPair, parseHexOctet,
    hexVal_hexCharOfNat (show b / 16 < 16 by omega),
    hexVal_hexCharOfNat (show b % 16 < 16 by omega)]
  congr 1
  omega

theorem parseHexQuad_groupToHexQuad {g : Nat} (hg : g < 65536) :
    parseHexQuad (groupToHexQuad g) = .ok g := by
  simp only [groupToHexQuad, parseHexQuad,
    hexVal_hexCharOfNat (show g / 4096 < 16 by omega),
    hexVal_hexCharOfNat (show g / 256 % 16 < 16 by omega),
    hexVal_hexCharOfNat (show g / 16 % 16 < 16 by omega),
    hexVal_hexCharOfNat (show g % 16 < 16 by omega)]
  congr 1
  omega

theorem parseDecOctet_byteToDec {b : Nat} (hb : b < 256) :
    parseDecOctet (byteToDec b) = .ok b := by
  by_cases h1 : b < 10
  · have e : (0 : Nat) * 10 + b = b := by omega
    simp [byteToDec, h1, parseDecOctet, mapOption, decVal_decCharOfNat h1, e, hb]
  · by_cases h2 : b < 100
    · simp [byteToDec, h1, h2, parseDecOctet, mapOption,
        decVal_decCharOfNat (show b / 10 < 10 by omega),
        decVal_decCharOfNat (show b % 10 < 10 by omega)]
      rw [show b / 10 * 10 + b % 10 = b by omega, if_pos hb]
    · simp [byteToDec, h1, h2, parseDecOctet, mapOption,
        decVal_decCharOfNat (show b / 100 < 10 by omega),
        decVal_decCharOfNat (show b / 10 % 10 < 10 by omega),
        decVal_decCharOfNat (show b % 10 < 10 by omega)]
      rw [show (b / 100 * 10 + b / 10 % 10) * 10 + b % 10 = b by omega, if_pos hb]

theorem bytePairsToGroups_length :
    ∀ (l : List Nat), (bytePairsToGroups l).length = l.length / 2
  | [] => by simp [bytePairsToGroups]
  | [_] => by simp [bytePairsToGroups]
  | b1 :: b2 :: rest => by
    have ih := bytePairsToGroups_length rest
    simp only [bytePairsToGroups, List.length_cons, ih]
    omega

theorem bytePairsToGroups_lt :
    ∀ (l : List Nat), (∀ b ∈ l, b < 256) → ∀ g ∈ bytePairsToGroups l, g < 65536
  | [] => by simp [bytePairsToGroups]
  | [_] => by simp [bytePairsToGroups]
  | b1 :: b2 :: rest => by
    intro hb g hg
    have h1 : b1 < 256 := hb b1 (by simp)
    have h2 : b2 < 256 := hb b2 (by simp)
    rw [bytePairsToGroups] at hg
    rcases List.mem_cons.mp hg with h | h
    · omega
    · exact bytePairsToGroups_lt rest (fun b hbm => hb b (by simp [hbm])) g h

theorem bytePairsToGroups_flatten :
    ∀ (l : List Nat), l.length % 2 = 0 → (∀ b ∈ l, b < 256) →
      ((bytePairsToGroups l).map (fun v => [v / 256, v % 256])).flatten = l
  | [] => by simp [bytePairsToGroups]
  | [_] => by
    intro h _
    simp only [List.length_singleton] at h
    omega
  | b1 :: b2 :: rest => by
    intro h hb
    have h1 : b1 < 256 := hb b1 (by simp)
    have h2 : b2 < 256 := hb b2 (by simp)
    have ih := bytePairsToGroups_flatten rest
      (by simp only [List.length_cons] at h; omega)
      (fun b hbm => hb b (by simp [hbm]))
    simp only [bytePairsToGroups, List.map_cons, List.flatten_cons, ih]
    have e1 : (b1 * 256 + b2) / 256 = b1 := by omega
    have e2 : (b1 * 256 + b2) % 256 = b2 := by omega
    simp [e1, e2]

theorem mac_roundtrip {s : List Nat} (hs : ∀ b ∈ s, b < 256) (hlen : s.length = 6) :
    MacToPiByteString (joinWith ':' (s.map byteToHexPair)) = .ok s := by
  have hsplit : splitOnChar ':' (joinWith ':' (s.map byteToHexPair)) =
      s.map byteToHexPair := by
    apply splitOnChar_joinWith
    · intro hnil
      rw [List.map_eq_nil_iff] at hnil
      rw [hnil] at hlen
      simp at hlen
    · intro g hg x hx
      rcases List.mem_map.mp hg with ⟨b, hbmem, rfl⟩
      have hb := hs b hbmem
      simp only [byteToHexPair, List.mem_cons, List.not_mem_nil, or_false] at hx
      rcases hx with rfl | rfl
      · exact hexCharOfNat_ne_colon (by omega)
      · exact hexCharOfNat_ne_colon (by omega)
  rw [MacToPiByteString, hsplit, if_pos (by simp [hlen, kNumBytesInMac,
    kNumBitsInMac, kNumBitsInByte])]
  exact mapMExcept_roundtrip parseHexOctet byteToHexPair s
    (fun b hb => parseHexOctet_byteToHexPair (hs b hb))

theorem ipv4_roundtrip {s : List Nat} (hs : ∀ b ∈ s, b < 256) (hlen : s.length = 4) :
    Ipv4ToPiByteString (joinWith '.' (s.map byteToDec)) = .ok s := by
  have hsplit : splitOnChar '.' (joinWith '.' (s.map byteToDec)) =
      s.map byteToDec := by
    apply splitOnChar_joinWith
    · intro hnil
      rw [List.map_eq_nil_iff] at hnil
      rw [hnil] at hlen
      simp at hlen
    · intro g hg x hx
      rcases List.mem_map.mp hg with ⟨b, hbmem, rfl⟩
      have hb := hs b hbmem
      rw [byteToDec] at hx
      split_ifs at hx <;>
        simp only [List.mem_cons, List.not_mem_nil, or_false] at hx
      · rcases hx with rfl
        exact decCharOfNat_ne_dot (by omega)
      · rcases hx with rfl | rfl
        · exact decCharOfNat_ne_dot (by omega)
        · exact decCharOfNat_ne_dot (by omega)
      · rcases hx with rfl | rfl | rfl
        · exact decCharOfNat_ne_dot (by omega)
        · exact decCharOfNat_ne_dot (by omega)
        · exact decCharOfNat_ne_dot (by omega)
  rw [Ipv4ToPiByteString, hsplit, if_pos (by simp [hlen, kNumBytesInIpv4,
    kNumBitsInIpv4, kNumBitsInByte])]
  exact mapMExcept_roundtrip parseDecOctet byteToDec s
    (fun b hb => parseDecOctet_byteToDec (hs b hb))

theorem ipv6_roundtrip {s : List Nat} (hs : ∀ b ∈ s, b < 256)
    (hlen : s.length = 16) :
    Ipv6ToPiByteString (joinWith ':' ((bytePairsToGroups s).map groupToHexQuad)) =
      .ok s := by
  have hglen : (bytePairsToGroups s).length = 8 := by
    rw [bytePairsToGroups_length, hlen]
  have hglt : ∀ g ∈ bytePairsToGroups s, g < 65536 := bytePairsToGroups_lt s hs
  have hsplit : splitOnChar ':' (joinWith ':'
        ((bytePairsToGroups s).map groupToHexQuad)) =
      (bytePairsToGroups s).map groupToHexQuad := by
    apply splitOnChar_joinWith
    · intro hnil
      rw [List.map_eq_nil_iff] at hnil
      rw [hnil] at hglen
      simp at hglen
    · intro g hg x hx
      rcases List.mem_map.mp hg with ⟨v, hvmem, rfl⟩
      have hv := hglt v hvmem
      simp only [groupToHexQuad, List.mem_cons, List.not_mem_nil, or_false] at hx
      rcases hx with rfl | rfl | rfl | rfl <;> exact hexCharOfNat_ne_colon (by omega)
  rw [Ipv6ToPiByteString, hsplit, if_pos (by simp [hglen])]
  simp only [mapMExcept_roundtrip parseHexQuad groupToHexQuad _
    (fun g hg => parseHexQuad_groupToHexQuad (hglt g hg))]
  rw [bytePairsToGroups_flatten s (by rw [hlen]) hs]

/-- C2: for every 6-byte string s, MacToPiByteString of PiByteStringToMac of s
succeeds and equals s; analogously for 4-byte strings via the IPv4 pair and
16-byte strings via the IPv6 pair. -/
theorem claim_c2 (s : List Nat) (hs : ∀ b ∈ s, b < 256) :
    (s.length = 6 →
      ∃ t, PiByteStringToMac s = .ok t ∧ MacToPiByteString t = .ok s) ∧
    (s.length = 4 →
      ∃ t, PiByteStringToIpv4 s = .ok t ∧ Ipv4ToPiByteString t = .ok s) ∧
    (s.length = 16 →
      ∃ t, PiByteStringToIpv6 s = .ok t ∧ Ipv6ToPiByteString t = .ok s) := by
  refine ⟨fun h6 => ⟨_, ?_, mac_roundtrip hs h6⟩,
    fun h4 => ⟨_, ?_, ipv4_roundtrip hs h4⟩,
    fun h16 => ⟨_, ?_, ipv6_roundtrip hs h16⟩⟩
  · rw [PiByteStringToMac, if_pos (by rw [h6]; rfl)]
  · rw [PiByteStringToIpv4, if_pos (by rw [h4]; rfl)]
  · rw [PiByteStringToIpv6, if_pos (by rw [h16]; rfl)]

/-- Witness for C2 at the 6-byte string aa:bb:cc:dd:ee:ff. -/
theorem claim_c2_witness :
    (∀ b ∈ ([170, 187, 204, 221, 238, 255] : List Nat), b < 256) ∧
    ([170, 187, 204, 221, 238, 255] : List Nat).length = 6 ∧
    ∃ t, PiByteStringToMac [170, 187, 204, 221, 238, 255] = .ok t ∧
      MacToPiByteString t = .ok [170, 187, 204, 221, 238, 255] :=
  ⟨by decide, by decide, (claim_c2 _ (by decide)).1 (by decide)⟩

theorem collect_eq_mapM (label : List Char) (p : List Char → Except Err T) :
    ∀ (annos : List (List Char)),
      collectParsedAnnotations label p annos =
        mapMExcept p (matchingBodies label annos) := by
  intro annos
  induction annos with
  | nil => rfl
  | cons a rest ih =>
    simp only [matchingBodies] at ih ⊢
    rw [List.filterMap_cons]
    cases hpa : ParseAnnotation a with
    | error e => simp [collectParsedAnnotations, hpa, ih]
    | ok comps =>
      by_cases hl : comps.label = label
      · simp only [collectParsedAnnotations, hpa, if_pos hl, ih, mapMExcept]
      · simp [collectParsedAnnotations, hpa, hl, ih]

theorem mapMExcept_all_ok (p : α → Except Err β) :
    ∀ (l : List α), (∀ b ∈ l, ∃ v, p b = .ok v) →
      mapMExcept p l = .ok (l.filterMap (fun b => exceptToOption (p b))) := by
  intro l
  induction l with
  | nil => intro _; rfl
  | cons a l' ih =>
    intro h
    obtain ⟨v, hv⟩ := h a (by simp)
    simp [mapMExcept, hv, ih (fun b hb => h b (by simp [hb])),
      List.filterMap_cons, exceptToOption]

theorem filterMap_length_all_ok (p : α → Except Err β) :
    ∀ (l : List α), (∀ b ∈ l, ∃ v, p b = .ok v) →
      (l.filterMap (fun b => exceptToOption (p b))).length = l.length := by
  intro l
  induction l with
  | nil => intro _; rfl
  | cons a l' ih =>
    intro h
    obtain ⟨v, hv⟩ := h a (by simp)
    have hv2 : exceptToOption (p a) = some v := by rw [hv]; rfl
    simp only [List.filterMap_cons, hv2, List.length_cons]
    rw [ih (fun b hb => h b (by simp [hb]))]

/-- C7: GetAllParsedAnnotations (and its wrapper GetAllAnnotationBodies) is
label-selective and order-preserving: annotations that fail to parse are
skipped without error and the result collects the body-parser outputs of
exactly the annotations whose label matches, in input order, with NotFound
when there are none; in particular, on the three annotations at-a-of-1,
at-b-of-2, at-a-of-3 with label a the bodies returned are 1 and 3 in that
order. -/
theorem claim_c7 :
    (∀ (T : Type) (label : List Char) (annos : List (List Char))
        (p : List Char → Except Err T),
      (∀ b ∈ matchingBodies label annos, ∃ v, p b = .ok v) →
      GetAllParsedAnnotations label annos p =
        if matchingBodies label annos = [] then .error .notFound
        else .ok ((matchingBodies label annos).filterMap
          (fun b => exceptToOption (p b)))) ∧
    GetAllAnnotationBodies ("a".toList)
        [("@a(1)".toList), ("@b(2)".toList), ("@a(3)".toList)] =
      .ok [("1".toList), ("3".toList)] := by
  constructor
  · intro T label annos p h
    rw [GetAllParsedAnnotations, collect_eq_mapM, mapMExcept_all_ok p _ h]
    by_cases hnil : matchingBodies label annos = []
    · rw [if_pos hnil, hnil]
      rfl
    · rw [if_neg hnil]
      obtain ⟨b, bs, hcons⟩ := List.exists_cons_of_ne_nil hnil
      rw [hcons]
      obtain ⟨v, hv⟩ := h b (by rw [hcons]; simp)
      simp [List.filterMap_cons, hv, exceptToOption]
  · rfl

/-- Witness for C7 at the example annotation list with the Raw body parser. -/
theorem claim_c7_witness :
    (∀ b ∈ matchingBodies ("a".toList)
        [("@a(1)".toList), ("@b(2)".toList), ("@a(3)".toList)],
      ∃ v, Raw b = .ok v) ∧
    GetAllParsedAnnotations ("a".toList)
        [("@a(1)".toList), ("@b(2)".toList), ("@a(3)".toList)] Raw =
      if matchingBodies ("a".toList)
          [("@a(1)".toList), ("@b(2)".toList), ("@a(3)".toList)] = [] then
        .error .notFound
      else .ok ((matchingBodies ("a".toList)
          [("@a(1)".toList), ("@b(2)".toList), ("@a(3)".toList)]).filterMap
        (fun b => exceptToOption (Raw b))) :=
  ⟨fun b _ => ⟨b, rfl⟩, claim_c7.1 _ _ _ _ (fun b _ => ⟨b, rfl⟩)⟩

/-- C10 (implicit): when every annotation bearing the requested label is
itself syntactically malformed, so that no annotation in the list parses
with that label, GetAllParsedAnnotations returns NotFound for every body
parser, and the body parser is never invoked; in particular an annotation
with a missing closing parenthesis is treated as absent. -/
theorem claim_c10 :
    (∀ (T : Type) (label : List Char) (annos : List (List Char))
        (p : List Char → Except Err T),
      (∀ a ∈ annos, ∀ comps, ParseAnnotation a = .ok comps →
        comps.label ≠ label) →
      GetAllParsedAnnotations label annos p = .error .notFound) ∧
    (∀ (T : Type) (p : List Char → Except Err T),
      GetAllParsedAnnotations ("a".toList) [("@a(1".toList)] p =
        .error .notFound) ∧
    ParseAnnotation ("@a(1".toList) = .error .invalidArgument := by
  have main : ∀ (T : Type) (label : List Char) (annos : List (List Char))
      (p : List Char → Except Err T),
      (∀ a ∈ annos, ∀ comps, ParseAnnotation a = .ok comps →
        comps.label ≠ label) →
      GetAllParsedAnnotations label annos p = .error .notFound := by
    intro T label annos p h
    have hnil : matchingBodies label annos = [] := by
      rw [matchingBodies, List.filterMap_eq_nil_iff]
      intro a ha
      cases hpa : ParseAnnotation a with
      | error e => simp [hpa]
      | ok comps => simp [hpa, h a ha comps hpa]
    rw [GetAllParsedAnnotations, collect_eq_mapM, hnil]
    rfl
  refine ⟨main, fun T p => main T _ _ p ?_, rfl⟩
  intro a ha comps hc
  rw [List.mem_singleton] at ha
  subst ha
  rw [show ParseAnnotation ("@a(1".toList) =
    Except.error Err.invalidArgument from rfl] at hc
  exact Except.noConfusion hc

/-- Witness for C10 at a single malformed annotation with the requested
label and the Raw body parser. -/
theorem claim_c10_witness :
    (∀ a ∈ [("@a(1".toList)], ∀ comps, ParseAnnotation a = .ok comps →
      comps.label ≠ ("a".toList)) ∧
    GetAllParsedAnnotations ("a".toList) [("@a(1".toList)] Raw =
      .error .notFound := by
  have h : ∀ a ∈ [("@a(1".toList)], ∀ comps, ParseAnnotation a = .ok comps →
      comps.label ≠ ("a".toList) := by
    intro a ha comps hc
    rw [List.mem_singleton] at ha
    subst ha
    rw [show ParseAnnotation ("@a(1".toList) =
      Except.error Err.invalidArgument from rfl] at hc
    exact Except.noConfusion hc
  exact ⟨h, claim_c10.1 (List Char) _ _ Raw h⟩

/-- Counterexample to C8 as stated: on a list where two annotations parse
with label a, a body parser that fails with NotFound makes
GetParsedAnnotation fail with NotFound, not InvalidArgument — the first
body-parser failure is propagated before the multiplicity check. -/
theorem claim_c8_counterexample :
    1 < (matchingBodies ("a".toList)
        [("@a(1)".toList), ("@a(2)".toList)]).length ∧
    GetParsedAnnotation ("a".toList) [("@a(1)".toList), ("@a(2)".toList)]
        (fun _ => (Except.error Err.notFound : Except Err Unit)) =
      .error .notFound :=
  ⟨by decide, rfl⟩

/-- C8 amended: GetParsedAnnotation fails with NotFound when zero
annotations parse with the given label; when exactly one matches it returns
the body parser's result on that annotation's body; when more than one
matches and the body parser succeeds on the matching bodies it fails with
InvalidArgument (a body-parser failure is instead propagated as-is). -/
theorem claim_c8 (T : Type) (label : List Char) (annos : List (List Char))
    (p : List Char → Except Err T) :
    (matchingBodies label annos = [] →
      GetParsedAnnotation label annos p = .error .notFound) ∧
    (∀ b, matchingBodies label annos = [b] →
      GetParsedAnnotation label annos p = p b) ∧
    (1 < (matchingBodies label annos).length →
      (∀ b ∈ matchingBodies label annos, ∃ v, p b = .ok v) →
      GetParsedAnnotation label annos p = .error .invalidArgument) := by
  refine ⟨?_, ?_, ?_⟩
  · intro h
    rw [ GetParsedAnnotation, GetAllParsedAnnotations, collect_eq_mapM, h]
    rfl
  · intro b h
    rw [ GetParsedAnnotation, GetAllParsedAnnotations, collect_eq_mapM, h]
    cases hp : p b with
    | error e => simp [mapMExcept, hp]
    | ok v => simp [mapMExcept, hp]
  · intro hlen hok
    rw [ GetParsedAnnotation, GetAllParsedAnnotations, collect_eq_mapM,
      mapMExcept_all_ok p _ hok]
    have hl : ((matchingBodies label annos).filterMap
        (fun b => exceptToOption (p b))).length =
        (matchingBodies label annos).length :=
      filterMap_length_all_ok p _ hok
    cases hfm : (matchingBodies label annos).filterMap
        (fun b => exceptToOption (p b)) with
    | nil =>
      rw [hfm] at hl
      simp at hl
      omega
    | cons v vs =>
      rw [hfm] at hl
      cases vs with
      | nil =>
        simp at hl
        omega
      | cons w ws => simp

/-- Witness for C8 at the example list where two annotations parse with
label a and the body parser is Raw. -/
theorem claim_c8_witness :
    1 < (matchingBodies ("a".toList)
        [("@a(1)".toList), ("@b(2)".toList), ("@a(3)".toList)]).length ∧
    GetParsedAnnotation ("a".toList)
        [("@a(1)".toList), ("@b(2)".toList), ("@a(3)".toList)] Raw =
      .error .invalidArgument :=
  ⟨by decide, (claim_c8 _ _ _ Raw).2.2 (by decide) (fun b _ => ⟨b, rfl⟩)⟩

/-- C9: ParseAsArgList fails with InvalidArgument exactly when the body
contains a character that is not alphanumeric, comma, space, tab, or
underscore; otherwise it returns the comma-separated elements with
surrounding whitespace trimmed, in order, and an empty body yields an empty
list rather than an error; in particular the body 10-comma-20-comma-30
yields the three elements 10, 20, 30 and a body with an exclamation mark is
InvalidArgument. -/
theorem claim_c9 :
    (∀ (body : List Char),
      (ParseAsArgList body = .error .invalidArgument ↔
        ¬ ∀ c ∈ body, isArgListChar c = true) ∧
      ((∀ c ∈ body, isArgListChar c = true) →
        ParseAsArgList body =
          .ok (if body = [] then []
            else (splitOnChar ',' body).map trimWS))) ∧
    ParseAsArgList ("10, 20,30".toList) =
      .ok [("10".toList), ("20".toList), ("30".toList)] ∧
    ParseAsArgList ("bad!char".toList) = .error .invalidArgument ∧
    ParseAsArgList [] = .ok [] := by
  refine ⟨?_, rfl, rfl, rfl⟩
  intro body
  constructor
  · constructor
    · intro he hforall
      rw [ParseAsArgList, if_pos (List.all_eq_true.mpr hforall)] at he
      by_cases hnil : body = []
      · rw [if_pos hnil] at he
        exact Except.noConfusion he
      · rw [if_neg hnil] at he
        exact Except.noConfusion he
    · intro hn
      rw [ParseAsArgList, if_neg (fun hall => hn (List.all_eq_true.mp hall))]
  · intro hforall
    rw [ParseAsArgList, if_pos (List.all_eq_true.mpr hforall)]
    by_cases hnil : body = []
    · rw [if_pos hnil, if_pos hnil]
    · rw [if_neg hnil, if_neg hnil]

/-- Witness for C9 at the body 10-comma-20-comma-30. -/
theorem claim_c9_witness :
    (∀ c ∈ ("10, 20,30".toList), isArgListChar c = true) ∧
    ParseAsArgList ("10, 20,30".toList) =
      .ok (if ("10, 20,30".toList) = ([] : List Char) then []
        else (splitOnChar ',' ("10, 20,30".toList)).map trimWS) :=
  ⟨by decide, (claim_c9.1 _).2 (by decide)⟩

/-- C3: GetFormat resolves with the precedence: the SDN string flag forces
STRING regardless of bit-width or annotations; otherwise, when no applicable
format annotation is present (the format-directive lookup reports NotFound),
the result is determined by bit-width alone: 48 gives MAC, 32 gives IPV4,
128 gives IPV6, and any other bit-width gives HEX_STRING. -/
theorem claim_c3 :
    (∀ (annos : List (List Char)) (bitwidth : Nat),
      GetFormat annos bitwidth true = .ok .STRING ∧
      ( GetParsedAnnotation formatLabel annos parseFormatBody =
          .error .notFound →
        GetFormat annos bitwidth false =
          .ok (if bitwidth = 48 then Format.MAC
            else if bitwidth = 32 then Format.IPV4
            else if bitwidth = 128 then Format.IPV6
            else Format.HEX_STRING))) ∧
    GetFormat [] 48 false = .ok .MAC ∧
    GetFormat [] 32 true = .ok .STRING := by
  refine ⟨?_, rfl, rfl⟩
  intro annos bitwidth
  refine ⟨rfl, ?_⟩
  intro h
  rw [GetFormat, if_neg (by simp), h]
  simp [kNumBitsInMac, kNumBitsInIpv4, kNumBitsInIpv6]

/-- Witness for C3 at an empty annotation list and bitwidth 7. -/
theorem claim_c3_witness :
    GetParsedAnnotation formatLabel [] parseFormatBody = .error .notFound ∧
    GetFormat [] 7 false =
      .ok (if 7 = 48 then Format.MAC else if 7 = 32 then Format.IPV4
        else if 7 = 128 then Format.IPV6 else Format.HEX_STRING) :=
  ⟨rfl, (claim_c3.1 [] 7).2 rfl⟩

/-- C6: for every Format f and text t, FormattedStringToIrValue t f produces
an IrValue whose active variant matches f, so ValidateIrValueFormat accepts
it at f; and for every other Format it fails with InvalidArgument. -/
theorem claim_c6 (t : List Char) (f : Format) :
    ValidateIrValueFormat (FormattedStringToIrValue t f) f = .ok () ∧
    ∀ f2, f2 ≠ f →
      ValidateIrValueFormat (FormattedStringToIrValue t f) f2 =
        .error .invalidArgument := by
  constructor
  · cases f <;> rfl
  · intro f2 hne
    cases f <;> cases f2 <;> first
      | exact absurd rfl hne
      | rfl

/-- Witness for C6 at the MAC format against the IPV4 format. -/
theorem claim_c6_witness :
    Format.IPV4 ≠ Format.MAC ∧
    ValidateIrValueFormat (FormattedStringToIrValue ("aa".toList) Format.MAC)
        Format.MAC = .ok () ∧
    ValidateIrValueFormat (FormattedStringToIrValue ("aa".toList) Format.MAC)
        Format.IPV4 = .error .invalidArgument :=
  ⟨by decide, (claim_c6 ("aa".toList) Format.MAC).1,
    (claim_c6 ("aa".toList) Format.MAC).2 Format.IPV4 (by decide)⟩

end Pdpi
